import Mathlib

/-!
Verification of the tldextract suffix-matching core and of its lint test
harness.

The suffix-matching engine (rule parser, suffix trie builder, suffix
matcher, domain splitter) is not present among the repository's source
files; it is modelled here from the specification, faithfully following
its component contracts (sections 3, 4.1-4.4, 7).  The lint test harness
(`tldextract/tests/lint.py`) is present in the source and is embedded
directly; its effectful pieces (running pylint as a subprocess, matching
its output lines against a regular expression) are represented by their
observable results, supplied as inputs.
-/

/-- Modelled from the spec: kind of a PSL rule (missing source file:
the rule parser / trie of the suffix-matching core): plain rule,
wildcard rule `*.suffix`, or exception rule `!name.suffix`. -/
inductive RuleKind where
  | Normal
  | Wildcard
  | Exception
deriving DecidableEq, Repr

/-- Modelled from the spec: which section of the PSL a rule came from. -/
inductive Source where
  | ICANN
  | Private
deriving DecidableEq, Repr

/-- Modelled from the spec: one PSL rule: `labels` ordered left-to-right
(a wildcard rule keeps `*` as its first label), `kind`, and `source`. -/
structure Rule where
  labels : List String
  kind : RuleKind
  source : Source
deriving DecidableEq, Repr

/-- Modelled from the spec: the build failure raised when two rules
disagree on the terminal kind at the same trie path. -/
inductive BuildError where
  | duplicateRuleConflict
deriving DecidableEq, Repr

/-- Modelled from the spec: a node of the reversed-label suffix trie.
`children` maps literal labels to child nodes; the wildcard child is a
dedicated separate field so it cannot collide with a literal label
named `*`; `endKind` and `source` are set when a rule terminates here. -/
inductive TrieNode where
  | node (children : List (String × TrieNode)) (wildcard : Option TrieNode)
      (endKind : Option RuleKind) (source : Option Source)

def TrieNode.children : TrieNode → List (String × TrieNode)
  | .node cs _ _ _ => cs

def TrieNode.wildcard : TrieNode → Option TrieNode
  | .node _ w _ _ => w

def TrieNode.endKind : TrieNode → Option RuleKind
  | .node _ _ ek _ => ek

def TrieNode.source : TrieNode → Option Source
  | .node _ _ _ s => s

def emptyNode : TrieNode := .node [] none none none

/-- Look a literal label up in a children association list. -/
def findChild : List (String × TrieNode) → String → Option TrieNode
  | [], _ => none
  | (k, v) :: rest, l => if k = l then some v else findChild rest l

/-- Replace the binding of a label in a children association list,
appending it when absent. -/
def updateChild : List (String × TrieNode) → String → TrieNode → List (String × TrieNode)
  | [], l, c => [(l, c)]
  | (k, v) :: rest, l, c => if k = l then (l, c) :: rest else (k, v) :: updateChild rest l c

/-- Modelled from the spec (missing source file: the suffix trie
builder): walk/create trie nodes along one rule's reversed-label path,
creating intermediate nodes as needed; at the terminal node set
`endKind` and `source`; a terminal whose `endKind` is already set to a
different kind signals `DuplicateRuleConflict`, an agreeing kind is a
no-op.  A path element `*` addresses the dedicated wildcard child. -/
def insertPath : TrieNode → List String → RuleKind → Source → Except BuildError TrieNode
  | .node cs w ek s, [], k, src =>
    match ek with
    | none => .ok (.node cs w (some k) (some src))
    | some k0 => if k0 = k then .ok (.node cs w ek s) else .error .duplicateRuleConflict
  | .node cs w ek s, l :: rest, k, src =>
    if l = "*" then
      match insertPath (w.getD emptyNode) rest k src with
      | .ok w2 => .ok (.node cs (some w2) ek s)
      | .error e => .error e
    else
      match insertPath ((findChild cs l).getD emptyNode) rest k src with
      | .ok c2 => .ok (.node (updateChild cs l c2) w ek s)
      | .error e => .error e

/-- Fold the rules into a starting trie, aborting on the first conflict. -/
def buildFrom : TrieNode → List Rule → Except BuildError TrieNode
  | t, [] => .ok t
  | t, r :: rest =>
    match insertPath t r.labels.reverse r.kind r.source with
    | .ok t2 => buildFrom t2 rest
    | .error e => .error e

/-- Modelled from the spec (missing source file: the suffix trie
builder): compile parsed rules into a reversed-label trie, or fail with
`DuplicateRuleConflict`. -/
def build (rules : List Rule) : Except BuildError TrieNode :=
  buildFrom emptyNode rules

def buildOk : Except BuildError TrieNode → Bool
  | .ok _ => true
  | .error _ => false

/-- The trie a successful build produces (the empty trie on failure);
used to state facts about concretely built tries. -/
def buildOr (rules : List Rule) : TrieNode :=
  match build rules with
  | .ok t => t
  | .error _ => emptyNode

/-- The terminal kind stored at a reversed-label path of the trie
(`*` addresses the wildcard child), if any. -/
def endKindAt (t : TrieNode) : List String → Option RuleKind
  | [] => t.endKind
  | l :: rest =>
    match (if l = "*" then t.wildcard else findChild t.children l) with
    | none => none
    | some c => endKindAt c rest

/-- Modelled from the spec (missing source file: the suffix matcher):
the longest suffix match found: number of labels consumed from the TLD
end, the source of the matching rule, and whether a wildcard or
exception rule produced it. -/
structure MatchResult where
  matchedLabelCount : Nat
  sourceOfMatch : Option Source
  wasWildcard : Bool
  wasException : Bool
deriving DecidableEq, Repr

/-- Whether a node is eligible to produce a terminal match: when
`include_private` is false, Private-sourced nodes are excluded from
candidacy (they are still traversed structurally). -/
def eligibleNode (includePrivate : Bool) (c : TrieNode) : Bool :=
  includePrivate || !(c.source == some Source.Private)

/-- Record the candidate produced by arriving at node `c` with `d`
labels already consumed: Normal/Wildcard terminals record `d + 1`
(longer always wins along the descent), an Exception terminal
overrides the wildcard match at this depth and pops one label back to
the parent's suffix boundary, recording `d`. -/
def updateBest (includePrivate : Bool) (d : Nat) (c : TrieNode) (best : MatchResult) :
    MatchResult :=
  if eligibleNode includePrivate c then
    match c.endKind with
    | some RuleKind.Exception => ⟨d, c.source, false, true⟩
    | some RuleKind.Wildcard => ⟨d + 1, c.source, true, false⟩
    | some RuleKind.Normal => ⟨d + 1, c.source, false, false⟩
    | none => best
  else best

/-- Descend one step from a node for a hostname label: a literal child
if one exists, else the wildcard child if one exists. -/
def lookupChild (n : TrieNode) (l : String) : Option TrieNode :=
  match findChild n.children l with
  | some c => some c
  | none => n.wildcard

/-- Modelled from the spec (missing source file: the suffix matcher):
iterative walk over the reversed labels carrying the running best
candidate; stops when labels are exhausted or no child exists. -/
def matchLoop (includePrivate : Bool) : TrieNode → List String → Nat → MatchResult → MatchResult
  | _, [], _, best => best
  | n, l :: rest, d, best =>
    match lookupChild n l with
    | none => best
    | some c => matchLoop includePrivate c rest (d + 1) (updateBest includePrivate d c best)

/-- Modelled from the spec (missing source file: the suffix matcher):
`match(trie, reversed_labels, include_private)`.  The initial best
match realises the implicit rule that an unlisted TLD is its own
public suffix (length 1), except that an empty hostname matches zero
labels. -/
def matchTrie (t : TrieNode) (reversedLabels : List String) (includePrivate : Bool) :
    MatchResult :=
  matchLoop includePrivate t reversedLabels 0
    ⟨if reversedLabels.isEmpty then 0 else 1, none, false, false⟩

/-- Join labels with a dot. -/
def dotJoin : List String → String
  | [] => ""
  | [x] => x
  | x :: y :: t => x ++ "." ++ dotJoin (y :: t)

/-- Modelled from the spec: the final output triple. -/
structure ExtractResult where
  subdomain : String
  domain : String
  suffix : String
deriving DecidableEq, Repr

/-- Assemble the final triple from the remaining labels and the suffix
labels: empty remainder means the hostname is exactly the suffix; else
the last remaining label is the domain and the rest join into the
subdomain. -/
def splitParts (remaining : List String) (suffixLabels : List String) : ExtractResult :=
  match remaining with
  | [] => ⟨"", "", dotJoin suffixLabels⟩
  | _ :: _ =>
    ⟨dotJoin remaining.dropLast, (remaining.getLast?).getD "", dotJoin suffixLabels⟩

/-- Modelled from the spec (missing source file: the domain splitter):
`split(original_labels, match)`: the suffix is the rightmost
`matched_label_count` labels joined with dots; the remainder supplies
domain and subdomain. -/
def splitLabels (labels : List String) (m : MatchResult) : ExtractResult :=
  splitParts (labels.take (labels.length - m.matchedLabelCount))
    (labels.drop (labels.length - m.matchedLabelCount))

/-- Modelled from the spec: the composition of matcher and splitter on
a hostname given in original (subdomain-first) label order. -/
def extract (t : TrieNode) (labels : List String) (includePrivate : Bool) : ExtractResult :=
  splitLabels labels (matchTrie t labels.reverse includePrivate)

/-- Modelled from the spec: the `include_private_suffixes` option
defaults to false. -/
def defaultIncludePrivate : Bool := false

/-- Extraction with the configuration option left at its default. -/
def extractDefault (t : TrieNode) (labels : List String) : ExtractResult :=
  extract t labels defaultIncludePrivate

/-- Join the non-empty parts of an ExtractResult with dots, in
subdomain, domain, suffix order. -/
def joinParts (r : ExtractResult) : String :=
  dotJoin (([r.subdomain, r.domain, r.suffix]).filter (fun s => s != ""))

/-- A whitespace character for line stripping. -/
def isWSChar (c : Char) : Bool :=
  c = ' ' || c = '\t' || c = '\r' || c = '\n'

/-- Strip leading and trailing whitespace from a line's characters. -/
def stripChars (cs : List Char) : List Char :=
  ((cs.dropWhile isWSChar).reverse.dropWhile isWSChar).reverse

/-- A comment line starts with `//`. -/
def isCommentLine : List Char → Bool
  | '/' :: '/' :: _ => true
  | _ => false

/-- Modelled from the spec: a section marker line (e.g.
`===BEGIN PRIVATE DOMAINS===`), which toggles the current source tag. -/
def isMarkerLine : List Char → Bool
  | '=' :: '=' :: '=' :: _ => true
  | _ => false

/-- Toggle ICANN/Private at a section marker. -/
def toggleSource : Source → Source
  | .ICANN => .Private
  | .Private => .ICANN

/-- Split characters into dot-separated groups. -/
def splitDot : List Char → List (List Char)
  | [] => [[]]
  | c :: rest =>
    if c = '.' then [] :: splitDot rest
    else
      match splitDot rest with
      | g :: gs => (c :: g) :: gs
      | [] => [[c]]

/-- Modelled from the spec (missing source file: the rule parser):
parse one stripped, non-blank, non-comment, non-marker line: a leading
`!` means Exception (and is stripped), a leading `*.` means Wildcard
(the `*` is kept as the first label), else Normal; labels are split on
`.` and lowercased; a line yielding any empty label is malformed and
produces no rule. -/
def ruleKindBody (cs : List Char) : RuleKind × List Char :=
  match cs with
  | '!' :: rest => (RuleKind.Exception, rest)
  | '*' :: '.' :: rest => (RuleKind.Wildcard, '*' :: '.' :: rest)
  | _ => (RuleKind.Normal, cs)

def ruleLabels (cs : List Char) : List String :=
  (splitDot (ruleKindBody cs).2).map (fun g => String.mk (g.map Char.toLower))

def parseRuleLine (src : Source) (cs : List Char) : Option Rule :=
  if (ruleLabels cs).any (fun l => l == "") then none
  else some ⟨ruleLabels cs, (ruleKindBody cs).1, src⟩

/-- Modelled from the spec (missing source file: the rule parser):
process the lines in order, carrying the current source tag; blank
lines and comments are ignored, marker lines toggle the source tag,
malformed rule lines are skipped, well-formed rule lines each
contribute one rule in order. -/
def parseLines : Source → List String → List Rule
  | _, [] => []
  | src, line :: rest =>
    let cs := stripChars line.data
    if cs.isEmpty then parseLines src rest
    else if isMarkerLine cs then parseLines (toggleSource src) rest
    else if isCommentLine cs then parseLines src rest
    else
      match parseRuleLine src cs with
      | some r => r :: parseLines src rest
      | none => parseLines src rest

/-- Modelled from the spec (missing source file: the rule parser):
`parse(raw_text)`, with the raw text represented by its list of lines;
the source tag starts as ICANN. -/
def parsePSL (lines : List String) : List Rule :=
  parseLines Source.ICANN lines

/-- A line that reaches rule parsing (non-blank, non-marker,
non-comment once stripped) but yields no rule, i.e. a malformed rule
line such as one with consecutive dots. -/
def isMalformedLine (line : String) : Bool :=
  let cs := stripChars line.data
  !cs.isEmpty && !isMarkerLine cs && !isCommentLine cs &&
    (parseRuleLine Source.ICANN cs).isNone

/-!
Embedding of `tldextract/tests/lint.py`.  The subprocess and regular
expression effects are represented by their observable results: each
pylint run is given by the length of its stderr output and by the
optional `re.MatchObject` (its captured groups) of each stdout line.
-/

/-- Python tuple `<` on version tuples: lexicographic, a proper
initial segment is smaller. -/
def tupleLt : List Nat → List Nat → Bool
  | [], [] => false
  | [], _ :: _ => true
  | _ :: _, [] => false
  | a :: as2, b :: bs => a < b || (a = b && tupleLt as2 bs)

/-- Python tuple `<=`: equal or less. -/
def tupleLe (a b : List Nat) : Bool :=
  a == b || tupleLt a b

/-- `(2, 7) <= sys.version_info < (3, 5)` from `PylintTestMeta.__new__`. -/
def is_pylint_compatible (v : List Nat) : Bool :=
  tupleLe [2, 7] v && tupleLt v [3, 5]

/-- The captured groups of one matched pylint output line. -/
structure PylintError where
  location : String
  category : String
  message : String
deriving DecidableEq, Repr

/-- The observable outcome of one generated test method. -/
inductive TestOutcome where
  | pass
  | fail (msg : String)
deriving DecidableEq, Repr

def methodPasses : TestOutcome → Bool
  | .pass => true
  | .fail _ => false

/-- `PylintTestMeta.generate_lint_fail_method`: the generated method
runs `self.assertTrue(False, test_msg)`, failing with the message. -/
def generate_lint_fail_method (msg : String) : TestOutcome :=
  .fail msg

/-- `exclude_categories = set(('info',))` in `pylint_errors`. -/
def exclude_categories : List String := ["info"]

/-- One pylint subprocess run: stderr length and the per-line optional
regular-expression match of stdout. -/
structure PylintRun where
  stderrLen : Nat
  stdout : List (Option PylintError)

/-- `PylintTestMeta.pylint_errors`: raises when stderr looks like a
pylint exit error (length over 200), else yields the matched lines
whose category is not excluded. -/
def pylint_errors (pr : PylintRun) : Except String (List PylintError) :=
  if pr.stderrLen > 200 then .error "pylint exited with error"
  else
    .ok (pr.stdout.filterMap fun m =>
      match m with
      | some e => if e.category ∈ exclude_categories then none else some e
      | none => none)

/-- `'test {} {}'.format(location, category)` in `__new__`. -/
def testName (e : PylintError) : String :=
  "test " ++ e.location ++ " " ++ e.category

/-- Python dict assignment `di[test_name] = test_method`. -/
def dictInsert (d : List (String × TestOutcome)) (k : String) (v : TestOutcome) :
    List (String × TestOutcome) :=
  match d with
  | [] => [(k, v)]
  | (k0, v0) :: rest => if k0 = k then (k, v) :: rest else (k0, v0) :: dictInsert rest k v

/-- `PylintTestMeta.__new__`: on an incompatible Python version the
class dict is returned unchanged; otherwise every pylint error from
every project file adds one always-failing test method. -/
def metaNew (v : List Nat) (di : List (String × TestOutcome)) (files : List PylintRun) :
    Except String (List (String × TestOutcome)) :=
  if is_pylint_compatible v then
    match files.mapM pylint_errors with
    | .error e => .error e
    | .ok ess =>
      .ok (ess.flatten.foldl
        (fun d e => dictInsert d (testName e) (generate_lint_fail_method e.message)) di)
  else .ok di

/-- A unittest suite passes when every test method passes. -/
def suitePasses (d : List (String × TestOutcome)) : Bool :=
  d.all (fun kv => methodPasses kv.2)

theorem dotJoin_cons (x : String) (ys : List String) (h : ys ≠ []) :
    dotJoin (x :: ys) = x ++ "." ++ dotJoin ys := by
  cases ys with
  | nil => exact absurd rfl h
  | cons y t => rfl

theorem dotJoin_append (xs ys : List String) (hx : xs ≠ []) (hy : ys ≠ []) :
    dotJoin (xs ++ ys) = dotJoin xs ++ "." ++ dotJoin ys := by
  induction xs with
  | nil => exact absurd rfl hx
  | cons x t ih =>
    cases t with
    | nil => simpa using dotJoin_cons x ys hy
    | cons x2 t2 =>
      have h1 : (x :: x2 :: t2) ++ ys = x :: (x2 :: t2 ++ ys) := rfl
      rw [h1, dotJoin_cons x (x2 :: t2 ++ ys) (by simp),
        ih (by simp), dotJoin_cons x (x2 :: t2) (by simp)]
      simp [String.append_assoc]

theorem dotJoin_ne_empty (xs : List String) (hne : xs ≠ []) (h : ∀ l ∈ xs, l ≠ "") :
    dotJoin xs ≠ "" := by
  cases xs with
  | nil => exact absurd rfl hne
  | cons x t =>
    cases t with
    | nil => simpa [dotJoin] using h x (by simp)
    | cons y t2 =>
      intro hE
      have hd := congrArg String.data hE
      simp [dotJoin, String.data_append] at hd

theorem joinParts_splitParts (R S : List String)
    (hR : ∀ l ∈ R, l ≠ "") (hS : ∀ l ∈ S, l ≠ "") :
    joinParts (splitParts R S) = dotJoin (R ++ S) := by
  cases R with
  | nil =>
    cases S with
    | nil => rfl
    | cons s t =>
      have hne : dotJoin (s :: t) ≠ "" := dotJoin_ne_empty _ (by simp) hS
      simp [splitParts, joinParts, List.filter, bne_iff_ne.mpr hne, dotJoin]
  | cons x xs =>
    cases xs with
    | nil =>
      have hx : x ≠ "" := hR x (by simp)
      cases S with
      | nil =>
        simp [splitParts, joinParts, List.filter, bne_iff_ne.mpr hx, dotJoin]
      | cons s t =>
        have hne : dotJoin (s :: t) ≠ "" := dotJoin_ne_empty _ (by simp) hS
        simp [splitParts, joinParts, List.filter, bne_iff_ne.mpr hx,
          bne_iff_ne.mpr hne, dotJoin]
    | cons y ys =>
      have hRne : (x :: y :: ys) ≠ ([] : List String) := by simp
      have hdl : (x :: y :: ys).dropLast ≠ [] := by simp
      have hsub : dotJoin (x :: y :: ys).dropLast ≠ "" :=
        dotJoin_ne_empty _ hdl (fun l hl => hR l (List.dropLast_subset _ hl))
      have hdom : (x :: y :: ys).getLast hRne ≠ "" :=
        hR _ (List.getLast_mem hRne)
      have hlast : ((x :: y :: ys).getLast?).getD "" = (x :: y :: ys).getLast hRne := by
        rw [List.getLast?_eq_getLast _ hRne]
        rfl
      have hsplit : (x :: y :: ys).dropLast ++ [(x :: y :: ys).getLast hRne] = x :: y :: ys :=
        List.dropLast_append_getLast hRne
      have key : dotJoin ((x :: y :: ys).dropLast) ++ "." ++ (x :: y :: ys).getLast hRne =
          dotJoin (x :: y :: ys) := by
        have h2 := dotJoin_append ((x :: y :: ys).dropLast)
          [(x :: y :: ys).getLast hRne] hdl (by simp)
        rw [hsplit] at h2
        exact h2.symm
      cases S with
      | nil =>
        show joinParts ⟨dotJoin (x :: y :: ys).dropLast, ((x :: y :: ys).getLast?).getD "",
          dotJoin []⟩ = dotJoin ((x :: y :: ys) ++ [])
        rw [hlast, List.append_nil]
        simp only [joinParts, List.filter, bne_iff_ne.mpr hsub, bne_iff_ne.mpr hdom,
          show dotJoin [] = "" from rfl, bne_self_eq_false]
        rw [show dotJoin [dotJoin (x :: y :: ys).dropLast, (x :: y :: ys).getLast hRne] =
          dotJoin ((x :: y :: ys).dropLast) ++ "." ++ (x :: y :: ys).getLast hRne from rfl]
        exact key
      | cons s t =>
        have hSne : dotJoin (s :: t) ≠ "" := dotJoin_ne_empty _ (by simp) hS
        show joinParts ⟨dotJoin (x :: y :: ys).dropLast, ((x :: y :: ys).getLast?).getD "",
          dotJoin (s :: t)⟩ = dotJoin ((x :: y :: ys) ++ s :: t)
        rw [hlast]
        simp only [joinParts, List.filter, bne_iff_ne.mpr hsub, bne_iff_ne.mpr hdom,
          bne_iff_ne.mpr hSne]
        rw [dotJoin_append (x :: y :: ys) (s :: t) hRne (by simp), ← key]
        rw [show dotJoin [dotJoin (x :: y :: ys).dropLast, (x :: y :: ys).getLast hRne,
          dotJoin (s :: t)] = dotJoin (x :: y :: ys).dropLast ++ "." ++
          ((x :: y :: ys).getLast hRne ++ "." ++ dotJoin (s :: t)) from rfl]
        simp [String.append_assoc]

theorem endKindAt_node_nil (cs : List (String × TrieNode)) (w : Option TrieNode)
    (ek : Option RuleKind) (s : Option Source) :
    endKindAt (.node cs w ek s) [] = ek := rfl

theorem endKindAt_node_cons (cs : List (String × TrieNode)) (w : Option TrieNode)
    (ek : Option RuleKind) (s : Option Source) (m : String) (q : List String) :
    endKindAt (.node cs w ek s) (m :: q) =
      match (if m = "*" then w else findChild cs m) with
      | none => none
      | some c => endKindAt c q := rfl

theorem endKindAt_emptyNode (p : List String) : endKindAt emptyNode p = none := by
  cases p with
  | nil => rfl
  | cons l rest =>
    show endKindAt (.node [] none none none) (l :: rest) = none
    rw [endKindAt_node_cons]
    by_cases h : l = "*" <;> simp [h, findChild]

theorem findChild_updateChild_self (cs : List (String × TrieNode)) (l : String) (c : TrieNode) :
    findChild (updateChild cs l c) l = some c := by
  induction cs with
  | nil => simp [updateChild, findChild]
  | cons kv rest ih =>
    obtain ⟨k, v⟩ := kv
    by_cases h : k = l
    · simp [updateChild, h, findChild]
    · simp [updateChild, h, findChild, ih]

theorem findChild_updateChild_ne (cs : List (String × TrieNode)) (l m : String) (c : TrieNode)
    (h : m ≠ l) : findChild (updateChild cs l c) m = findChild cs m := by
  induction cs with
  | nil => simp [updateChild, findChild, Ne.symm h]
  | cons kv rest ih =>
    obtain ⟨k, v⟩ := kv
    by_cases hk : k = l
    · subst hk
      simp [updateChild, findChild, Ne.symm h]
    · simp [updateChild, hk, findChild, ih]

theorem insertPath_nil (cs : List (String × TrieNode)) (w : Option TrieNode)
    (ek : Option RuleKind) (s : Option Source) (k : RuleKind) (src : Source) :
    insertPath (.node cs w ek s) [] k src =
      match ek with
      | none => .ok (.node cs w (some k) (some src))
      | some k0 =>
        if k0 = k then .ok (.node cs w ek s) else .error .duplicateRuleConflict := rfl

theorem insertPath_cons (cs : List (String × TrieNode)) (w : Option TrieNode)
    (ek : Option RuleKind) (s : Option Source) (l : String) (rest : List String)
    (k : RuleKind) (src : Source) :
    insertPath (.node cs w ek s) (l :: rest) k src =
      if l = "*" then
        match insertPath (w.getD emptyNode) rest k src with
        | .ok w2 => .ok (.node cs (some w2) ek s)
        | .error e => .error e
      else
        match insertPath ((findChild cs l).getD emptyNode) rest k src with
        | .ok c2 => .ok (.node (updateChild cs l c2) w ek s)
        | .error e => .error e := rfl

theorem buildErrorCases (x : Except BuildError TrieNode) :
    (∃ t, x = .ok t) ∨ x = .error BuildError.duplicateRuleConflict := by
  cases x with
  | ok t => exact Or.inl ⟨t, rfl⟩
  | error e => cases e; exact Or.inr rfl

theorem endKindAt_cons_star (cs : List (String × TrieNode)) (w : Option TrieNode)
    (ek : Option RuleKind) (s : Option Source) (q : List String) :
    endKindAt (.node cs w ek s) ("*" :: q) = endKindAt (w.getD emptyNode) q := by
  rw [endKindAt_node_cons, if_pos rfl]
  cases w with
  | none => simp [endKindAt_emptyNode]
  | some wn => simp

theorem endKindAt_cons_lit (cs : List (String × TrieNode)) (w : Option TrieNode)
    (ek : Option RuleKind) (s : Option Source) (m : String) (q : List String)
    (hm : m ≠ "*") :
    endKindAt (.node cs w ek s) (m :: q) = endKindAt ((findChild cs m).getD emptyNode) q := by
  rw [endKindAt_node_cons, if_neg hm]
  cases hf : findChild cs m with
  | none => simp [endKindAt_emptyNode]
  | some cn => simp

theorem insertPath_nil_none (cs : List (String × TrieNode)) (w : Option TrieNode)
    (s : Option Source) (k : RuleKind) (src : Source) :
    insertPath (.node cs w none s) [] k src = .ok (.node cs w (some k) (some src)) := rfl

theorem insertPath_nil_some (cs : List (String × TrieNode)) (w : Option TrieNode)
    (s : Option Source) (k0 k : RuleKind) (src : Source) :
    insertPath (.node cs w (some k0) s) [] k src =
      if k0 = k then .ok (.node cs w (some k0) s)
      else .error .duplicateRuleConflict := rfl

theorem insertPath_ok_endKindAt (p : List String) :
    ∀ (t t2 : TrieNode) (k : RuleKind) (src : Source),
      insertPath t p k src = Except.ok t2 →
      ∀ q, endKindAt t2 q = if q = p then some k else endKindAt t q := by
  induction p with
  | nil =>
    intro t t2 k src hok q
    obtain ⟨cs, w, ek, s⟩ := t
    cases ek with
    | none =>
      rw [insertPath_nil_none] at hok
      simp only [Except.ok.injEq] at hok
      subst hok
      cases q with
      | nil => simp [endKindAt_node_nil]
      | cons m q2 =>
        by_cases hm : m = "*"
        · subst hm
          simp [endKindAt_cons_star]
        · simp [endKindAt_cons_lit _ _ _ _ _ _ hm]
    | some k0 =>
      rw [insertPath_nil_some] at hok
      by_cases hk : k0 = k
      · rw [if_pos hk] at hok
        simp only [Except.ok.injEq] at hok
        subst hok
        cases q with
        | nil => simp [endKindAt_node_nil, hk]
        | cons m q2 => simp
      · rw [if_neg hk] at hok
        cases hok
  | cons l p2 ih =>
    intro t t2 k src hok q
    obtain ⟨cs, w, ek, s⟩ := t
    by_cases hl : l = "*"
    · subst hl
      rw [insertPath_cons, if_pos rfl] at hok
      cases hw : insertPath (w.getD emptyNode) p2 k src with
      | error e =>
        rw [hw] at hok
        simp at hok
      | ok w2 =>
        rw [hw] at hok
        simp only [Except.ok.injEq] at hok
        subst hok
        have ihw := ih _ _ _ _ hw
        cases q with
        | nil => simp [endKindAt_node_nil]
        | cons m q2 =>
          by_cases hm : m = "*"
          · subst hm
            rw [endKindAt_cons_star, endKindAt_cons_star]
            simp only [Option.getD_some]
            rw [ihw q2]
            by_cases hq : q2 = p2
            · subst hq
              simp
            · rw [if_neg hq, if_neg (by simp [hq] : ¬("*" :: q2) = ("*" :: p2))]
          · rw [endKindAt_cons_lit _ _ _ _ _ _ hm, endKindAt_cons_lit _ _ _ _ _ _ hm,
              if_neg (by simp [hm] : ¬(m :: q2) = ("*" :: p2))]
    · rw [insertPath_cons, if_neg hl] at hok
      cases hc : insertPath ((findChild cs l).getD emptyNode) p2 k src with
      | error e =>
        rw [hc] at hok
        simp at hok
      | ok c2 =>
        rw [hc] at hok
        simp only [Except.ok.injEq] at hok
        subst hok
        have ihc := ih _ _ _ _ hc
        cases q with
        | nil => simp [endKindAt_node_nil]
        | cons m q2 =>
          by_cases hm : m = l
          · subst hm
            rw [endKindAt_cons_lit _ _ _ _ _ _ hl, endKindAt_cons_lit _ _ _ _ _ _ hl,
              findChild_updateChild_self]
            simp only [Option.getD_some]
            rw [ihc q2]
            by_cases hq : q2 = p2
            · subst hq
              simp
            · rw [if_neg hq, if_neg (by simp [hq] : ¬(m :: q2) = (m :: p2))]
          · have hne : ¬(m :: q2) = (l :: p2) := by simp [hm]
            rw [if_neg hne]
            by_cases hm2 : m = "*"
            · subst hm2
              rw [endKindAt_cons_star, endKindAt_cons_star]
            · rw [endKindAt_cons_lit _ _ _ _ _ _ hm2, endKindAt_cons_lit _ _ _ _ _ _ hm2,
                findChild_updateChild_ne _ _ _ _ hm]

theorem insertPath_error_iff (p : List String) :
    ∀ (t : TrieNode) (k : RuleKind) (src : Source),
      insertPath t p k src = Except.error BuildError.duplicateRuleConflict ↔
      ∃ k0, endKindAt t p = some k0 ∧ k0 ≠ k := by
  induction p with
  | nil =>
    intro t k src
    obtain ⟨cs, w, ek, s⟩ := t
    cases ek with
    | none => simp [insertPath_nil_none, endKindAt_node_nil]
    | some k0 =>
      rw [insertPath_nil_some, endKindAt_node_nil]
      by_cases hk : k0 = k
      · subst hk
        simp
      · simp [hk]
  | cons l p2 ih =>
    intro t k src
    obtain ⟨cs, w, ek, s⟩ := t
    by_cases hl : l = "*"
    · subst hl
      rw [insertPath_cons, if_pos rfl, endKindAt_cons_star]
      cases hw : insertPath (w.getD emptyNode) p2 k src with
      | ok w2 =>
        have hiff := ih (w.getD emptyNode) k src
        rw [hw] at hiff
        simp at hiff
        simpa using hiff
      | error e =>
        cases e
        have hex := (ih (w.getD emptyNode) k src).mp hw
        simp [hex]
    · rw [insertPath_cons, if_neg hl, endKindAt_cons_lit _ _ _ _ _ _ hl]
      cases hc : insertPath ((findChild cs l).getD emptyNode) p2 k src with
      | ok c2 =>
        have hiff := ih ((findChild cs l).getD emptyNode) k src
        rw [hc] at hiff
        simp at hiff
        simpa using hiff
      | error e =>
        cases e
        have hex := (ih ((findChild cs l).getD emptyNode) k src).mp hc
        simp [hex]

theorem buildFrom_nil (t : TrieNode) : buildFrom t [] = .ok t := rfl

theorem buildFrom_cons (t : TrieNode) (r : Rule) (rest : List Rule) :
    buildFrom t (r :: rest) =
      match insertPath t r.labels.reverse r.kind r.source with
      | .ok t2 => buildFrom t2 rest
      | .error e => .error e := rfl

theorem insertPath_ok_of_agree (t : TrieNode) (p : List String) (k : RuleKind) (src : Source)
    (h : ∀ k0, endKindAt t p = some k0 → k0 = k) :
    ∃ t2, insertPath t p k src = .ok t2 := by
  rcases buildErrorCases (insertPath t p k src) with ⟨t2, h2⟩ | h2
  · exact ⟨t2, h2⟩
  · obtain ⟨k0, hk0, hne⟩ := (insertPath_error_iff p t k src).mp h2
    exact absurd (h k0 hk0) hne

theorem buildFrom_ok_pres (rs : List Rule) :
    ∀ (t t2 : TrieNode), buildFrom t rs = .ok t2 →
      ∀ q k, endKindAt t q = some k → endKindAt t2 q = some k := by
  induction rs with
  | nil =>
    intro t t2 h q k hq
    rw [buildFrom_nil] at h
    simp only [Except.ok.injEq] at h
    subst h
    exact hq
  | cons r rest ih =>
    intro t t2 h q k hq
    rw [buildFrom_cons] at h
    cases hi : insertPath t r.labels.reverse r.kind r.source with
    | error e =>
      rw [hi] at h
      simp at h
    | ok t1 =>
      rw [hi] at h
      have hmid : endKindAt t1 q = some k := by
        rw [insertPath_ok_endKindAt _ _ _ _ _ hi]
        by_cases hp : q = r.labels.reverse
        · rw [if_pos hp]
          have hnoerr : ¬insertPath t r.labels.reverse r.kind r.source =
              Except.error BuildError.duplicateRuleConflict := by
            rw [hi]
            simp
          have hcomp := fun hex => hnoerr ((insertPath_error_iff _ t _ _).mpr hex)
          by_cases hk : k = r.kind
          · rw [hk]
          · exact absurd ⟨k, hp ▸ hq, hk⟩ hcomp
        · rw [if_neg hp]
          exact hq
      exact ih t1 t2 h q k hmid

theorem buildFrom_ok_mem (rs : List Rule) :
    ∀ (t t2 : TrieNode), buildFrom t rs = .ok t2 →
      ∀ r ∈ rs, endKindAt t2 r.labels.reverse = some r.kind := by
  induction rs with
  | nil => simp
  | cons r rest ih =>
    intro t t2 h r2 hr2
    rw [buildFrom_cons] at h
    cases hi : insertPath t r.labels.reverse r.kind r.source with
    | error e =>
      rw [hi] at h
      simp at h
    | ok t1 =>
      rw [hi] at h
      rcases List.mem_cons.mp hr2 with rfl | hmem
      · have h1 : endKindAt t1 r2.labels.reverse = some r2.kind := by
          rw [insertPath_ok_endKindAt _ _ _ _ _ hi, if_pos rfl]
        exact buildFrom_ok_pres rest t1 t2 h _ _ h1
      · exact ih t1 t2 h r2 hmem

theorem buildFrom_coherent_ok (rs : List Rule) :
    ∀ t : TrieNode,
      (∀ r ∈ rs, ∀ k0, endKindAt t r.labels.reverse = some k0 → k0 = r.kind) →
      (∀ r1 ∈ rs, ∀ r2 ∈ rs, r1.labels.reverse = r2.labels.reverse → r1.kind = r2.kind) →
      ∃ t2, buildFrom t rs = .ok t2 := by
  induction rs with
  | nil => intro t _ _; exact ⟨t, rfl⟩
  | cons r rest ih =>
    intro t hag hco
    obtain ⟨t1, h1⟩ := insertPath_ok_of_agree t r.labels.reverse r.kind r.source
      (fun k0 hk0 => hag r (by simp) k0 hk0)
    have hag1 : ∀ r2 ∈ rest, ∀ k0, endKindAt t1 r2.labels.reverse = some k0 → k0 = r2.kind := by
      intro r2 hr2 k0 hk0
      rw [insertPath_ok_endKindAt _ _ _ _ _ h1] at hk0
      by_cases hp : r2.labels.reverse = r.labels.reverse
      · rw [if_pos hp] at hk0
        have hk : r.kind = k0 := Option.some.inj hk0
        have hco2 : r.kind = r2.kind :=
          hco r (List.mem_cons_self r rest) r2 (List.mem_cons_of_mem r hr2) hp.symm
        exact hk ▸ hco2
      · rw [if_neg hp] at hk0
        exact hag r2 (by simp [hr2]) k0 hk0
    obtain ⟨t2, h2⟩ := ih t1 hag1
      (fun r1 h1m r2 h2m => hco r1 (by simp [h1m]) r2 (by simp [h2m]))
    refine ⟨t2, ?_⟩
    rw [buildFrom_cons, h1]
    exact h2

theorem matchLoop_nil (incl : Bool) (n : TrieNode) (d : Nat) (best : MatchResult) :
    matchLoop incl n [] d best = best := rfl

theorem matchLoop_cons (incl : Bool) (n : TrieNode) (l : String) (rest : List String)
    (d : Nat) (best : MatchResult) :
    matchLoop incl n (l :: rest) d best =
      match lookupChild n l with
      | none => best
      | some c => matchLoop incl c rest (d + 1) (updateBest incl d c best) := rfl

theorem parseLines_nil (src : Source) : parseLines src [] = [] := rfl

theorem parseLines_cons (src : Source) (line : String) (rest : List String) :
    parseLines src (line :: rest) =
      if (stripChars line.data).isEmpty then parseLines src rest
      else if isMarkerLine (stripChars line.data) then parseLines (toggleSource src) rest
      else if isCommentLine (stripChars line.data) then parseLines src rest
      else
        match parseRuleLine src (stripChars line.data) with
        | some r => r :: parseLines src rest
        | none => parseLines src rest := rfl

theorem parseRuleLine_none_iff (src : Source) (cs : List Char) :
    parseRuleLine src cs = none ↔ parseRuleLine Source.ICANN cs = none := by
  unfold parseRuleLine
  by_cases h : (ruleLabels cs).any (fun l => l == "") = true
  · simp [h]
  · simp [h]

theorem matchLoop_cons_some (incl : Bool) (n : TrieNode) (l : String) (rest : List String)
    (d : Nat) (best : MatchResult) (c : TrieNode) (h : lookupChild n l = some c) :
    matchLoop incl n (l :: rest) d best =
      matchLoop incl c rest (d + 1) (updateBest incl d c best) := by
  rw [matchLoop_cons, h]

theorem matchLoop_cons_none (incl : Bool) (n : TrieNode) (l : String) (rest : List String)
    (d : Nat) (best : MatchResult) (h : lookupChild n l = none) :
    matchLoop incl n (l :: rest) d best = best := by
  rw [matchLoop_cons, h]

/-- The dictionary update loop of `PylintTestMeta.__new__`, abstracted
for reasoning. -/
def lintFold (di : List (String × TestOutcome)) (es : List PylintError) :
    List (String × TestOutcome) :=
  es.foldl (fun d e => dictInsert d (testName e) (generate_lint_fail_method e.message)) di

theorem dictInsert_ne_nil (d : List (String × TestOutcome)) (k : String) (v : TestOutcome) :
    dictInsert d k v ≠ [] := by
  cases d with
  | nil => simp [dictInsert]
  | cons kv rest =>
    obtain ⟨k0, v0⟩ := kv
    by_cases h : k0 = k <;> simp [dictInsert, h]

theorem lintFold_ne_nil (es : List PylintError) :
    ∀ d : List (String × TestOutcome), d ≠ [] → lintFold d es ≠ [] := by
  induction es with
  | nil => intro d h; simpa [lintFold] using h
  | cons e rest ih =>
    intro d h
    show lintFold (dictInsert d (testName e) (generate_lint_fail_method e.message)) rest ≠ []
    exact ih _ (dictInsert_ne_nil _ _ _)

theorem dictInsert_fail_values (d : List (String × TestOutcome)) (k m : String)
    (h : ∀ kv ∈ d, ∃ m2, kv.2 = TestOutcome.fail m2) :
    ∀ kv ∈ dictInsert d k (TestOutcome.fail m), ∃ m2, kv.2 = TestOutcome.fail m2 := by
  induction d with
  | nil =>
    intro kv hkv
    simp [dictInsert] at hkv
    subst hkv
    exact ⟨m, rfl⟩
  | cons kv0 rest ih =>
    obtain ⟨k0, v0⟩ := kv0
    intro kv hkv
    by_cases hk : k0 = k
    · simp only [dictInsert, if_pos hk] at hkv
      rcases List.mem_cons.mp hkv with rfl | hmem
      · exact ⟨m, rfl⟩
      · exact h kv (List.mem_cons_of_mem _ hmem)
    · simp only [dictInsert, if_neg hk] at hkv
      rcases List.mem_cons.mp hkv with rfl | hmem
      · exact h _ (List.mem_cons_self _ _)
      · exact ih (fun kv2 hkv2 => h kv2 (List.mem_cons_of_mem _ hkv2)) kv hmem

theorem lintFold_fail_values (es : List PylintError) :
    ∀ d : List (String × TestOutcome), (∀ kv ∈ d, ∃ m2, kv.2 = TestOutcome.fail m2) →
      ∀ kv ∈ lintFold d es, ∃ m2, kv.2 = TestOutcome.fail m2 := by
  induction es with
  | nil => intro d h; simpa [lintFold] using h
  | cons e rest ih =>
    intro d h
    show ∀ kv ∈ lintFold (dictInsert d (testName e) (generate_lint_fail_method e.message)) rest, _
    exact ih _ (dictInsert_fail_values d (testName e) e.message h)

theorem suitePasses_lintFold_iff (es : List PylintError) :
    suitePasses (lintFold [] es) = true ↔ es = [] := by
  constructor
  · intro hall
    by_contra hne
    have hnn : lintFold [] es ≠ [] := by
      cases es with
      | nil => exact absurd rfl hne
      | cons e rest =>
        show lintFold (dictInsert [] (testName e) (generate_lint_fail_method e.message)) rest ≠ []
        exact lintFold_ne_nil rest _ (dictInsert_ne_nil _ _ _)
    obtain ⟨kv, hkv⟩ := List.exists_mem_of_ne_nil _ hnn
    obtain ⟨m2, hm2⟩ := lintFold_fail_values es [] (by simp) kv hkv
    unfold suitePasses at hall
    have hp := List.all_eq_true.mp hall kv hkv
    rw [hm2] at hp
    simp [methodPasses] at hp
  · rintro rfl
    rfl

/-- The two rules of the exception-override scenario: `*.ck` and `!www.ck`. -/
def rulesCk : List Rule :=
  [⟨["*", "ck"], RuleKind.Wildcard, Source.ICANN⟩,
   ⟨["www", "ck"], RuleKind.Exception, Source.ICANN⟩]

/-- The single compound-suffix rule `co.uk`. -/
def rulesCoUk : List Rule := [⟨["co", "uk"], RuleKind.Normal, Source.ICANN⟩]

/-- `io` as an ICANN rule and `github.io` as a Private rule. -/
def rulesGithub : List Rule :=
  [⟨["io"], RuleKind.Normal, Source.ICANN⟩,
   ⟨["github", "io"], RuleKind.Normal, Source.Private⟩]

/-- The trie node for `!www.ck`: an Exception terminal. -/
def ckExcNode : TrieNode := .node [] none (some RuleKind.Exception) (some Source.ICANN)

/-- The trie node for `*.ck`: a Wildcard terminal stored as the
dedicated wildcard child. -/
def ckWildNode : TrieNode := .node [] none (some RuleKind.Wildcard) (some Source.ICANN)

/-- The `ck` node of the trie built from `rulesCk`. -/
def ckNode : TrieNode := .node [("www", ckExcNode)] (some ckWildNode) none none

/-- C1: with rules `*.ck` (Wildcard) and `!www.ck` (Exception), hostname
`www.ck` splits as suffix `ck`, domain `www`, empty subdomain, while any
other `foo.ck` splits as suffix `foo.ck` with empty domain and
subdomain; in general, reaching an eligible Exception-flagged node
during matching overrides the wildcard candidate at that depth and
records a match one label shorter (the parent's boundary `d`). -/
theorem exception_overrides_wildcard (foo : String) (hfoo : foo ≠ "www") :
    buildOk (build rulesCk) = true ∧
    extract (buildOr rulesCk) ["www", "ck"] false = ⟨"", "www", "ck"⟩ ∧
    extract (buildOr rulesCk) [foo, "ck"] false = ⟨"", "", foo ++ ".ck"⟩ ∧
    (∀ (incl : Bool) (n : TrieNode) (l : String) (rest : List String) (d : Nat)
      (best : MatchResult) (c : TrieNode),
      lookupChild n l = some c → c.endKind = some RuleKind.Exception →
      eligibleNode incl c = true →
      matchLoop incl n (l :: rest) d best =
        matchLoop incl c rest (d + 1) ⟨d, c.source, false, true⟩) := by
  have hb : buildOr rulesCk = .node [("ck", ckNode)] none none none := rfl
  refine ⟨by decide, by decide, ?_, ?_⟩
  · have hlook : lookupChild ckNode foo = some ckWildNode := by
      unfold lookupChild ckNode
      simp [findChild, TrieNode.children, TrieNode.wildcard, Ne.symm hfoo]
    have hrev2 : ([foo, "ck"] : List String).reverse = ["ck", foo] := by simp
    unfold extract
    rw [hrev2, hb]
    unfold matchTrie
    rw [matchLoop_cons_some false (.node [("ck", ckNode)] none none none) "ck" [foo] 0
      _ ckNode rfl]
    rw [matchLoop_cons_some false ckNode foo [] 1 _ ckWildNode hlook]
    show splitLabels [foo, "ck"] ⟨2, some Source.ICANN, true, false⟩ = ⟨"", "", foo ++ ".ck"⟩
    show (⟨"", "", foo ++ "." ++ "ck"⟩ : ExtractResult) = ⟨"", "", foo ++ ".ck"⟩
    rw [String.append_assoc]
    exact rfl
  · intro incl n l rest d best c h1 h2 h3
    rw [matchLoop_cons_some incl n l rest d best c h1]
    unfold updateBest
    rw [h2, h3]
    simp

/-- Witness for C1 at the concrete label `foo` and at a concrete
exception node. -/
theorem exception_overrides_wildcard_witness :
    (("foo" : String) ≠ "www") ∧
    buildOk (build rulesCk) = true ∧
    extract (buildOr rulesCk) ["www", "ck"] false = ⟨"", "www", "ck"⟩ ∧
    extract (buildOr rulesCk) ["foo", "ck"] false = ⟨"", "", "foo" ++ ".ck"⟩ ∧
    matchLoop false ckNode ["www"] 0 ⟨1, none, false, false⟩ =
      matchLoop false ckExcNode [] 1 ⟨0, ckExcNode.source, false, true⟩ :=
  ⟨by decide,
   (exception_overrides_wildcard "foo" (by decide)).1,
   (exception_overrides_wildcard "foo" (by decide)).2.1,
   (exception_overrides_wildcard "foo" (by decide)).2.2.1,
   (exception_overrides_wildcard "foo" (by decide)).2.2.2 false ckNode "www" [] 0
     ⟨1, none, false, false⟩ ckExcNode rfl rfl rfl⟩

/-- C2: for any trie, flag, and hostname made of non-empty labels,
joining the non-empty parts of the extraction result with dots
reconstructs the hostname. -/
theorem extract_round_trip (t : TrieNode) (H : List String) (incl : Bool)
    (h : ∀ l ∈ H, l ≠ "") :
    joinParts (extract t H incl) = dotJoin H := by
  unfold extract splitLabels
  have key := joinParts_splitParts
    (H.take (H.length - (matchTrie t H.reverse incl).matchedLabelCount))
    (H.drop (H.length - (matchTrie t H.reverse incl).matchedLabelCount))
    (fun l hl => h l (List.take_subset _ _ hl))
    (fun l hl => h l (List.drop_subset _ _ hl))
  rw [List.take_append_drop] at key
  exact key

/-- Witness for C2 on the hostname `a.b.example.co.uk`. -/
theorem extract_round_trip_witness :
    (∀ l ∈ (["a", "b", "example", "co", "uk"] : List String), l ≠ "") ∧
    joinParts (extract (buildOr rulesCoUk) ["a", "b", "example", "co", "uk"] false) =
      dotJoin ["a", "b", "example", "co", "uk"] :=
  ⟨by decide, extract_round_trip (buildOr rulesCoUk) ["a", "b", "example", "co", "uk"]
    false (by decide)⟩

/-- C3: when the rightmost (TLD-end) label of the hostname has no child
at the trie root (no rule mentions it), the matcher returns the
implicit one-label match, and a one-label hostname extracts to suffix
equal to the whole hostname with empty domain and subdomain. -/
theorem unlisted_tld_is_own_suffix (t : TrieNode) (incl : Bool) (H : List String)
    (l0 : String) (rest : List String) (hrev : H.reverse = l0 :: rest)
    (hnr : lookupChild t l0 = none) :
    (matchTrie t H.reverse incl).matchedLabelCount = 1 ∧
    ∀ l : String, H = [l] → extract t H incl = ⟨"", "", l⟩ := by
  have hcount : matchTrie t H.reverse incl = ⟨1, none, false, false⟩ := by
    rw [hrev]
    unfold matchTrie
    rw [matchLoop_cons_none incl t l0 rest 0 _ hnr]
    exact rfl
  constructor
  · rw [hcount]
  · intro l hl
    subst hl
    unfold extract
    rw [hcount]
    rfl

/-- Witness for C3 on the single-label hostname `zz` against the
`co.uk` trie. -/
theorem unlisted_tld_is_own_suffix_witness :
    ((["zz"] : List String).reverse = "zz" :: []) ∧
    lookupChild (buildOr rulesCoUk) "zz" = none ∧
    ((matchTrie (buildOr rulesCoUk) (["zz"] : List String).reverse false).matchedLabelCount = 1 ∧
     ∀ l : String, (["zz"] : List String) = [l] →
       extract (buildOr rulesCoUk) ["zz"] false = ⟨"", "", l⟩) :=
  ⟨by decide, rfl,
   unlisted_tld_is_own_suffix (buildOr rulesCoUk) false ["zz"] "zz" [] (by decide) rfl⟩

/-- C4: with rule `co.uk` present, hostname `a.b.example.co.uk` yields
suffix `co.uk`, domain `example`, subdomain `a.b`: the matcher keeps
the deepest candidate and the splitter assigns the last remaining
label to the domain and joins the rest into the subdomain. -/
theorem compound_suffix_longest_match :
    buildOk (build rulesCoUk) = true ∧
    extract (buildOr rulesCoUk) ["a", "b", "example", "co", "uk"] false =
      ⟨"a.b", "example", "co.uk"⟩ :=
  ⟨by decide, by decide⟩

/-- C5: with `github.io` present only as a Private rule, extraction of
`x.github.io` gives suffix `io` when private suffixes are excluded and
suffix `github.io` when they are included; the two behaviours are
mutually exclusive and the flag defaults to false. -/
theorem private_suffix_toggle :
    buildOk (build rulesGithub) = true ∧
    extract (buildOr rulesGithub) ["x", "github", "io"] false = ⟨"x", "github", "io"⟩ ∧
    extract (buildOr rulesGithub) ["x", "github", "io"] true = ⟨"", "x", "github.io"⟩ ∧
    extract (buildOr rulesGithub) ["x", "github", "io"] false ≠
      extract (buildOr rulesGithub) ["x", "github", "io"] true ∧
    defaultIncludePrivate = false ∧
    extractDefault (buildOr rulesGithub) ["x", "github", "io"] =
      extract (buildOr rulesGithub) ["x", "github", "io"] false :=
  ⟨by decide, by decide, by decide, by decide, rfl, rfl⟩

/-- C6: building fails with `DuplicateRuleConflict` exactly when the
input contains two rules with the same reversed-label path but
different kinds; agreeing duplicates never abort the build, which
otherwise returns a trie. -/
theorem build_conflict_iff (rules : List Rule) :
    build rules = .error BuildError.duplicateRuleConflict ↔
    ∃ r1 ∈ rules, ∃ r2 ∈ rules,
      r1.labels.reverse = r2.labels.reverse ∧ r1.kind ≠ r2.kind := by
  constructor
  · intro herr
    by_contra hno
    push_neg at hno
    obtain ⟨t2, h2⟩ := buildFrom_coherent_ok rules emptyNode
      (fun r _ k0 hk0 => by rw [endKindAt_emptyNode] at hk0; cases hk0)
      hno
    unfold build at herr
    rw [h2] at herr
    cases herr
  · rintro ⟨r1, hr1, r2, hr2, hpath, hkind⟩
    rcases buildErrorCases (build rules) with ⟨t2, h2⟩ | h2
    · have e1 := buildFrom_ok_mem rules emptyNode t2 h2 r1 hr1
      have e2 := buildFrom_ok_mem rules emptyNode t2 h2 r2 hr2
      rw [hpath, e2] at e1
      exact absurd (Option.some.inj e1).symm hkind
    · exact h2

/-- C7: the parser is total by construction and permissive: a malformed
rule line (non-blank, non-marker, non-comment, but yielding an empty
label) is skipped wherever it occurs, parsing continuing with the
remaining lines; a well-formed rule line contributes exactly its rule,
in order. -/
theorem parser_skips_malformed :
    (∀ bad : String, isMalformedLine bad = true →
      ∀ (src : Source) (pre post : List String),
        parseLines src (pre ++ bad :: post) = parseLines src (pre ++ post)) ∧
    (∀ (src : Source) (line : String) (rest : List String) (r : Rule),
      (stripChars line.data).isEmpty = false →
      isMarkerLine (stripChars line.data) = false →
      isCommentLine (stripChars line.data) = false →
      parseRuleLine src (stripChars line.data) = some r →
      parseLines src (line :: rest) = r :: parseLines src rest) := by
  constructor
  · intro bad hbad
    unfold isMalformedLine at hbad
    simp only [Bool.and_eq_true, Bool.not_eq_true'] at hbad
    obtain ⟨⟨⟨hne, hnm⟩, hnc⟩, hnone⟩ := hbad
    have hnone2 : parseRuleLine Source.ICANN (stripChars bad.data) = none :=
      Option.isNone_iff_eq_none.mp hnone
    intro src pre post
    induction pre generalizing src with
    | nil =>
      simp only [List.nil_append]
      rw [parseLines_cons, if_neg (by simp [hne]), if_neg (by simp [hnm]),
        if_neg (by simp [hnc]), (parseRuleLine_none_iff src _).mpr hnone2]
    | cons p pre2 ih =>
      simp only [List.cons_append]
      rw [parseLines_cons, parseLines_cons]
      by_cases h1 : (stripChars p.data).isEmpty = true
      · rw [if_pos h1, if_pos h1]
        exact ih src
      · rw [if_neg h1, if_neg h1]
        by_cases h2 : isMarkerLine (stripChars p.data) = true
        · rw [if_pos h2, if_pos h2]
          exact ih (toggleSource src)
        · rw [if_neg h2, if_neg h2]
          by_cases h3 : isCommentLine (stripChars p.data) = true
          · rw [if_pos h3, if_pos h3]
            exact ih src
          · rw [if_neg h3, if_neg h3]
            cases hp : parseRuleLine src (stripChars p.data) with
            | none => exact ih src
            | some r => exact congrArg (List.cons r) (ih src)
  · intro src line rest r h1 h2 h3 h4
    rw [parseLines_cons, if_neg (by simp [h1]), if_neg (by simp [h2]),
      if_neg (by simp [h3]), h4]

/-- Witness for C7: the malformed line `a..b` is skipped, and the
well-formed line `co.uk` contributes its rule. -/
theorem parser_skips_malformed_witness :
    isMalformedLine "a..b" = true ∧
    parseLines Source.ICANN ([] ++ "a..b" :: ["com"]) =
      parseLines Source.ICANN ([] ++ ["com"]) ∧
    (stripChars ("co.uk" : String).data).isEmpty = false ∧
    isMarkerLine (stripChars ("co.uk" : String).data) = false ∧
    isCommentLine (stripChars ("co.uk" : String).data) = false ∧
    parseRuleLine Source.ICANN (stripChars ("co.uk" : String).data) =
      some ⟨["co", "uk"], RuleKind.Normal, Source.ICANN⟩ ∧
    parseLines Source.ICANN ["co.uk"] =
      ⟨["co", "uk"], RuleKind.Normal, Source.ICANN⟩ :: parseLines Source.ICANN [] :=
  ⟨by decide,
   parser_skips_malformed.1 "a..b" (by decide) Source.ICANN [] ["com"],
   by decide, by decide, by decide, by decide,
   parser_skips_malformed.2 Source.ICANN "co.uk" []
     ⟨["co", "uk"], RuleKind.Normal, Source.ICANN⟩
     (by decide) (by decide) (by decide) (by decide)⟩

/-- C8: matching and splitting are total Lean functions by
construction; in particular an empty hostname is not an error: the
matcher reports a zero-label match and the final result has all three
fields empty. -/
theorem matcher_splitter_total :
    (∀ (t : TrieNode) (incl : Bool), matchTrie t [] incl = ⟨0, none, false, false⟩) ∧
    (∀ m : MatchResult, splitLabels [] m = ⟨"", "", ""⟩) ∧
    (∀ (t : TrieNode) (incl : Bool), extract t [] incl = ⟨"", "", ""⟩) := by
  refine ⟨fun t incl => rfl, fun m => ?_, fun t incl => rfl⟩
  unfold splitLabels
  rw [List.take_nil, List.drop_nil]
  rfl

/-- C9: `PylintTestMeta.__new__` returns the class dict unchanged, with
no generated tests, on every Python version outside
`(2, 7) <= sys.version_info < (3, 5)`. -/
theorem pylint_version_gate (v : List Nat) (di : List (String × TestOutcome))
    (files : List PylintRun)
    (h : ¬(tupleLe [2, 7] v = true ∧ tupleLt v [3, 5] = true)) :
    metaNew v di files = .ok di := by
  have hc : is_pylint_compatible v = false := by
    cases hle : tupleLe [2, 7] v with
    | false => simp [is_pylint_compatible, hle]
    | true =>
      cases hlt : tupleLt v [3, 5] with
      | false => simp [is_pylint_compatible, hle, hlt]
      | true => exact absurd ⟨hle, hlt⟩ h
  simp [metaNew, hc]

/-- Witness for C9 at Python version 3.6.0. -/
theorem pylint_version_gate_witness :
    (¬(tupleLe [2, 7] [3, 6, 0] = true ∧ tupleLt [3, 6, 0] [3, 5] = true)) ∧
    metaNew [3, 6, 0] [("test sanity", TestOutcome.pass)] [] =
      .ok [("test sanity", TestOutcome.pass)] :=
  ⟨by decide, pylint_version_gate [3, 6, 0] [("test sanity", TestOutcome.pass)] []
    (by decide)⟩

/-- A concrete pylint run: one warning line, one info line, one
unmatched line, and an empty stderr. -/
def examplePylintRun : PylintRun :=
  ⟨0, [some ⟨"f.py:1", "warning", "bad"⟩, some ⟨"f.py:2", "info", "note"⟩, none]⟩

/-- C10: every generated test method fails unconditionally with the
pylint message, `pylint_errors` never yields an error of category
`info`, and on a compatible version the generated suite passes exactly
when pylint reported no non-info errors. -/
theorem lint_suite_iff_no_errors :
    (∀ msg : String, methodPasses (generate_lint_fail_method msg) = false) ∧
    (∀ (pr : PylintRun) (errs : List PylintError),
      pylint_errors pr = .ok errs → ∀ e ∈ errs, e.category ≠ "info") ∧
    (∀ (v : List Nat) (files : List PylintRun) (ess : List (List PylintError))
      (d : List (String × TestOutcome)),
      is_pylint_compatible v = true →
      files.mapM pylint_errors = .ok ess →
      metaNew v [] files = .ok d →
      (suitePasses d = true ↔ ess.flatten = [])) := by
  refine ⟨fun msg => rfl, ?_, ?_⟩
  · intro pr errs hok e he
    unfold pylint_errors at hok
    by_cases hs : pr.stderrLen > 200
    · rw [if_pos hs] at hok
      cases hok
    · rw [if_neg hs] at hok
      simp only [Except.ok.injEq] at hok
      subst hok
      obtain ⟨m, hm, hf⟩ := List.mem_filterMap.mp he
      cases m with
      | none => simp at hf
      | some e0 =>
        by_cases hc : e0.category ∈ exclude_categories
        · simp [hc] at hf
        · have hf2 : e0 = e := by simpa [hc] using hf
          subst hf2
          simpa [exclude_categories] using hc
  · intro v files ess d hv hm hd
    unfold metaNew at hd
    rw [if_pos hv, hm] at hd
    simp only [Except.ok.injEq] at hd
    subst hd
    exact suitePasses_lintFold_iff ess.flatten

/-- Witness for C10 on a concrete pylint run with one non-info error. -/
theorem lint_suite_iff_no_errors_witness :
    methodPasses (generate_lint_fail_method "bad") = false ∧
    (PylintError.mk "f.py:1" "warning" "bad").category ≠ "info" ∧
    (suitePasses [("test f.py:1 warning", TestOutcome.fail "bad")] = true ↔
      ([[PylintError.mk "f.py:1" "warning" "bad"]] : List (List PylintError)).flatten = []) :=
  ⟨lint_suite_iff_no_errors.1 "bad",
   lint_suite_iff_no_errors.2.1 examplePylintRun [⟨"f.py:1", "warning", "bad"⟩] rfl
     ⟨"f.py:1", "warning", "bad"⟩ (by decide),
   lint_suite_iff_no_errors.2.2 [2, 7] [examplePylintRun]
     [[⟨"f.py:1", "warning", "bad"⟩]] [("test f.py:1 warning", TestOutcome.fail "bad")]
     (by decide) rfl rfl⟩
